import Mathlib

/-!
Shallow embedding of the shellver library (src/src/lib.rs).

The library detects the shell controlling the calling process by walking
the process-parent chain through /proc records.  Its core is pure modulo
two injected capabilities: a text-read function (`ReadFn`) and a
command-execution function (`RunFn`).  We embed the core functions
directly; `io::Error` values are modelled by their `ErrorKind`, which is
the only part of an error the library ever creates or inspects.
-/

/-- The `io::ErrorKind` values that occur in the library and its tests.
`other` stands for every further kind; the code never matches on kinds,
so the distinction is irrelevant to its behavior. -/
inductive ErrorKind where
  | notFound
  | invalidData
  | permissionDenied
  | invalidInput
  | other
deriving DecidableEq, Repr

/-- Rust `char::is_whitespace` (Unicode White_Space property). -/
def isRustWhitespace (c : Char) : Bool :=
  c.toNat ∈ [0x09, 0x0A, 0x0B, 0x0C, 0x0D, 0x20, 0x85, 0xA0, 0x1680,
      0x2028, 0x2029, 0x202F, 0x205F, 0x3000]
    || (0x2000 ≤ c.toNat && c.toNat ≤ 0x200A)

/-- Rust `str::trim_end` on a character list: remove trailing whitespace. -/
def trimEndL (cs : List Char) : List Char :=
  (cs.reverse.dropWhile isRustWhitespace).reverse

/-- Rust `str::trim` on a character list: remove leading and trailing
whitespace. -/
def trimL (cs : List Char) : List Char :=
  trimEndL (cs.dropWhile isRustWhitespace)

/-- Rust `str::trim_end`, wrapped for `String`. -/
def trimEndStr (s : String) : String :=
  ⟨trimEndL s.data⟩

/-- Rust `str::strip_prefix`: `some rest` when the list starts with the
given pattern, `none` otherwise. -/
def stripPrefixL : List Char → List Char → Option (List Char)
  | [], l => some l
  | _ :: _, [] => none
  | p :: ps, c :: cs => if c = p then stripPrefixL ps cs else none

/-- Accumulator pass behind `rustLines`: `acc` holds the current line
reversed.  A line terminated by a newline has a trailing carriage return
removed; a final unterminated line is kept verbatim, and a final empty
segment produces no line — exactly Rust `str::lines`. -/
def rustLinesGo (acc : List Char) : List Char → List (List Char)
  | [] => if acc.isEmpty then [] else [acc.reverse]
  | c :: cs =>
    if c = '\n' then
      (match acc with
        | '\r' :: acc2 => acc2.reverse
        | _ => acc.reverse) :: rustLinesGo [] cs
    else
      rustLinesGo (c :: acc) cs

/-- Rust `str::lines` on a character list. -/
def rustLines (cs : List Char) : List (List Char) :=
  rustLinesGo [] cs

/-- Rust `str::parse::<u32>`: an optional leading plus sign, then at
least one ASCII digit, with the value required to fit in 32 bits
(otherwise Rust reports an overflow error, which the library folds into
the same failure as any other parse error). -/
def parseU32 (cs : List Char) : Option Nat :=
  let ds := match cs with
    | '+' :: rest => rest
    | _ => cs
  if ds.isEmpty then none
  else if ds.all (fun c => c.isDigit) then
    let v := ds.foldl (fun a c => a * 10 + (c.toNat - 48)) 0
    if v < 4294967296 then some v else none
  else none

/-- Whether a byte is a UTF-8 continuation byte (`0x80..=0xBF`). -/
def isContByte (b : Nat) : Bool :=
  0x80 ≤ b && b < 0xC0

/-- Rust `String::from_utf8` as a decoder on byte lists: `none` exactly
when the bytes are not valid UTF-8 (stray continuation bytes, truncated
or overlong sequences, surrogates, code points above U+10FFFF). -/
def utf8Decode? : List Nat → Option (List Char)
  | [] => some []
  | b :: bs =>
    if b < 0x80 then
      match utf8Decode? bs with
      | some cs => some (Char.ofNat b :: cs)
      | none => none
    else if b < 0xC2 then
      none
    else if b < 0xE0 then
      match bs with
      | b2 :: rest =>
        if isContByte b2 then
          match utf8Decode? rest with
          | some cs => some (Char.ofNat ((b - 0xC0) * 0x40 + (b2 - 0x80)) :: cs)
          | none => none
        else none
      | [] => none
    else if b < 0xF0 then
      match bs with
      | b2 :: b3 :: rest =>
        if isContByte b2 && isContByte b3 then
          let cp := (b - 0xE0) * 0x1000 + (b2 - 0x80) * 0x40 + (b3 - 0x80)
          if cp < 0x800 then none
          else if 0xD800 ≤ cp && cp ≤ 0xDFFF then none
          else
            match utf8Decode? rest with
            | some cs => some (Char.ofNat cp :: cs)
            | none => none
        else none
      | _ => none
    else if b < 0xF5 then
      match bs with
      | b2 :: b3 :: b4 :: rest =>
        if isContByte b2 && isContByte b3 && isContByte b4 then
          let cp := (b - 0xF0) * 0x40000 + (b2 - 0x80) * 0x1000
            + (b3 - 0x80) * 0x40 + (b4 - 0x80)
          if cp < 0x10000 then none
          else if 0x10FFFF < cp then none
          else
            match utf8Decode? rest with
            | some cs => some (Char.ofNat cp :: cs)
            | none => none
        else none
      | _ => none
    else none

/-- The regex `[0-9]+\.[0-9]+(?:\.[0-9]+)?` matched at the start of a
character list, with the regex crate's greedy semantics: each digit run
is maximal, and the optional third group participates exactly when a dot
followed by at least one digit follows the second run. -/
def matchDotted (cs : List Char) : Option (List Char) :=
  let d1 := cs.takeWhile Char.isDigit
  let r1 := cs.dropWhile Char.isDigit
  if d1.isEmpty then none
  else
    match r1 with
    | '.' :: r2 =>
      let d2 := r2.takeWhile Char.isDigit
      let r3 := r2.dropWhile Char.isDigit
      if d2.isEmpty then none
      else
        match r3 with
        | '.' :: r4 =>
          let d3 := r4.takeWhile Char.isDigit
          if d3.isEmpty then some (d1 ++ '.' :: d2)
          else some (d1 ++ '.' :: d2 ++ '.' :: d3)
        | _ => some (d1 ++ '.' :: d2)
    | _ => none

/-- `Regex::find` for the pattern above: the match at the leftmost
starting position, or `none`. -/
def findDotted : List Char → Option (List Char)
  | [] => none
  | c :: cs =>
    match matchDotted (c :: cs) with
    | some m => some m
    | none => findDotted cs

/-- The static shell catalog `SHELLS` from src/src/lib.rs. -/
def SHELLS : List String :=
  ["bash", "sh", "dash", "zsh", "fish", "ksh", "mksh", "tcsh", "csh"]

/-- The injected text-read capability (`type ReadFn = fn(&str) -> io::Result<String>`). -/
def ReadFn : Type := String → Except ErrorKind String

/-- The injected command-execution capability
(`type RunFn = fn(&str) -> io::Result<Vec<u8>>`); the bytes are the
captured standard output. -/
def RunFn : Type := String → Except ErrorKind (List Nat)

/-- The loop body of `ppid_from_text`: scan lines for one with prefix
`"PPid:"`, trim and parse its remainder. -/
def ppidFromLines : List (List Char) → Except ErrorKind Nat
  | [] => .error .notFound
  | line :: rest =>
    match stripPrefixL "PPid:".data line with
    | some tail =>
      match parseU32 (trimL tail) with
      | some v => .ok v
      | none => .error .invalidData
    | none => ppidFromLines rest

/-- `ppid_from_text` from src/src/lib.rs. -/
def ppid_from_text (text : String) : Except ErrorKind Nat :=
  ppidFromLines (rustLines text.data)

/-- `ppid_from_path_with` from src/src/lib.rs. -/
def ppid_from_path_with (path : String) (read : ReadFn) : Except ErrorKind Nat :=
  match read path with
  | .ok text => ppid_from_text text
  | .error e => .error e

/-- `shell_from_pid_with` from src/src/lib.rs: read the command-name
record and look for a catalog entry equal to the text with trailing
whitespace removed. -/
def shell_from_pid_with (path : String) (read : ReadFn) :
    Except ErrorKind (Option String) :=
  match read path with
  | .ok text => .ok (SHELLS.find? (fun sh => trimEndStr text == sh))
  | .error e => .error e

/-- `shell_version_with` from src/src/lib.rs: run the shell, decode its
captured output as UTF-8, and extract the first dotted-version match. -/
def shell_version_with (name : String) (run : RunFn) :
    Except ErrorKind (Option String) :=
  match run name with
  | .ok out =>
    match utf8Decode? out with
    | some cs => .ok ((findDotted cs).map (fun m => (⟨m⟩ : String)))
    | none => .error .invalidData
  | .error e => .error e

/-- The `Shell` result struct from src/src/lib.rs. -/
structure Shell where
  name : String
  version : Option String
deriving DecidableEq, Repr

/-- The path `format!("/proc/{pid}/comm")`. -/
def commPath (pid : Nat) : String :=
  "/proc/" ++ toString pid ++ "/comm"

/-- The path `format!("/proc/{pid}/status")`. -/
def statusPath (pid : Nat) : String :=
  "/proc/" ++ toString pid ++ "/status"

/-- The `while pid > 1 && hops < 32` loop of `Shell::detect_with`,
written as tail recursion on the mutable state `(pid, hops)`. -/
def detectLoop (read : ReadFn) (run : RunFn) (pid : Nat) (hops : Nat) :
    Except ErrorKind Shell :=
  if h : 1 < pid ∧ hops < 32 then
    match shell_from_pid_with (commPath pid) read with
    | .ok (some name) =>
      match shell_version_with name run with
      | .ok version => .ok { name := name, version := version }
      | .error e => .error e
    | .ok none =>
      match ppid_from_path_with (statusPath pid) read with
      | .ok pid2 => detectLoop read run pid2 (hops + 1)
      | .error e => .error e
    | .error e => .error e
  else
    .error .notFound
termination_by 32 - hops
decreasing_by omega

/-- `Shell::detect_with` from src/src/lib.rs. -/
def Shell.detect_with (read : ReadFn) (run : RunFn) : Except ErrorKind Shell :=
  match ppid_from_path_with "/proc/self/status" read with
  | .ok pid => detectLoop read run pid 0
  | .error e => .error e

/-- UTF-8 bytes of an ASCII string (all strings appearing in the claims
are ASCII, where the encoding is the identity on code points). -/
def asciiBytes (s : String) : List Nat :=
  s.data.map Char.toNat

theorem detectLoop_exit (read : ReadFn) (run : RunFn) (pid hops : Nat)
    (h : ¬(1 < pid ∧ hops < 32)) :
    detectLoop read run pid hops = .error .notFound := by
  rw [detectLoop, dif_neg h]

theorem detectLoop_found_ok (read : ReadFn) (run : RunFn) (pid hops : Nat)
    (name : String) (v : Option String)
    (hp : 1 < pid) (hh : hops < 32)
    (hc : shell_from_pid_with (commPath pid) read = .ok (some name))
    (hv : shell_version_with name run = .ok v) :
    detectLoop read run pid hops = .ok { name := name, version := v } := by
  rw [detectLoop, dif_pos ⟨hp, hh⟩, hc]
  simp only [hv]

theorem detectLoop_found_err (read : ReadFn) (run : RunFn) (pid hops : Nat)
    (name : String) (e : ErrorKind)
    (hp : 1 < pid) (hh : hops < 32)
    (hc : shell_from_pid_with (commPath pid) read = .ok (some name))
    (hv : shell_version_with name run = .error e) :
    detectLoop read run pid hops = .error e := by
  rw [detectLoop, dif_pos ⟨hp, hh⟩, hc]
  simp only [hv]

theorem detectLoop_skip (read : ReadFn) (run : RunFn) (pid hops pid2 : Nat)
    (hp : 1 < pid) (hh : hops < 32)
    (hc : shell_from_pid_with (commPath pid) read = .ok none)
    (hs : ppid_from_path_with (statusPath pid) read = .ok pid2) :
    detectLoop read run pid hops = detectLoop read run pid2 (hops + 1) := by
  rw [detectLoop, dif_pos ⟨hp, hh⟩, hc]
  simp only [hs]

theorem detectLoop_skip_err (read : ReadFn) (run : RunFn) (pid hops : Nat)
    (e : ErrorKind)
    (hp : 1 < pid) (hh : hops < 32)
    (hc : shell_from_pid_with (commPath pid) read = .ok none)
    (hs : ppid_from_path_with (statusPath pid) read = .error e) :
    detectLoop read run pid hops = .error e := by
  rw [detectLoop, dif_pos ⟨hp, hh⟩, hc]
  simp only [hs]

theorem detectLoop_comm_err (read : ReadFn) (run : RunFn) (pid hops : Nat)
    (e : ErrorKind)
    (hp : 1 < pid) (hh : hops < 32)
    (hc : shell_from_pid_with (commPath pid) read = .error e) :
    detectLoop read run pid hops = .error e := by
  rw [detectLoop, dif_pos ⟨hp, hh⟩, hc]

def c1read : ReadFn := fun path =>
  if path = "/proc/self/status" then .ok "PPid:\t100\n"
  else if path = "/proc/100/comm" then .ok "bash\n"
  else if path = "/proc/100/status" then .ok "PPid:\t50\n"
  else if path = "/proc/50/comm" then .ok "zsh\n"
  else .error .invalidInput

def c1run : RunFn := fun name =>
  if name = "bash" then .ok (asciiBytes "bash 5.2.0")
  else .ok (asciiBytes "zsh 5.9")

/-- C1: detection walks parent identifiers starting from the self status
record and stops at the first ancestor whose command name is a recognized
shell, returning its name with the probed version.  With self status
text "PPid:\t100\n", command-name record "bash\n" at pid 100 and
captured probe output "bash 5.2.0", the result is
{ name := "bash", version := some "5.2.0" } — whatever the rest of the
ancestry looks like, so an outer shell ancestor can never win. -/
theorem detect_closest_shell_scenario (read : ReadFn) (run : RunFn)
    (h1 : read "/proc/self/status" = .ok "PPid:\t100\n")
    (h2 : read "/proc/100/comm" = .ok "bash\n")
    (h3 : run "bash" = .ok (asciiBytes "bash 5.2.0")) :
    Shell.detect_with read run = .ok { name := "bash", version := some "5.2.0" } := by
  have hpid : ppid_from_path_with "/proc/self/status" read = .ok 100 := by
    unfold ppid_from_path_with
    rw [h1]
    rfl
  have hc : shell_from_pid_with (commPath 100) read = .ok (some "bash") := by
    unfold shell_from_pid_with
    rw [show commPath 100 = "/proc/100/comm" from rfl, h2]
    rfl
  have hv : shell_version_with "bash" run = .ok (some "5.2.0") := by
    unfold shell_version_with
    rw [h3]
    rfl
  unfold Shell.detect_with
  rw [hpid]
  exact detectLoop_found_ok read run 100 0 "bash" (some "5.2.0")
    (by omega) (by omega) hc hv

/-- C1 witness: the scenario instantiated with a concrete read function
in which pid 100 has a further ancestor 50 whose command name is the
shell zsh; detection still stops at the closer bash. -/
theorem detect_closest_shell_scenario_witness :
    Shell.detect_with c1read c1run = .ok { name := "bash", version := some "5.2.0" } :=
  detect_closest_shell_scenario c1read c1run rfl rfl rfl

/-- Helper for C10: along the loop, a success's name comes from the catalog. -/
theorem detectLoop_name_mem (read : ReadFn) (run : RunFn) :
    ∀ (fuel pid hops : Nat) (sh : Shell), 32 - hops ≤ fuel →
      detectLoop read run pid hops = .ok sh → sh.name ∈ SHELLS := by
  intro fuel
  induction fuel with
  | zero =>
    intro pid hops sh hf hdet
    rw [detectLoop_exit read run pid hops (by omega)] at hdet
    exact Except.noConfusion hdet
  | succ n ih =>
    intro pid hops sh hf hdet
    by_cases hg : 1 < pid ∧ hops < 32
    · rw [detectLoop, dif_pos hg] at hdet
      cases hcomm : shell_from_pid_with (commPath pid) read with
      | error e =>
        rw [hcomm] at hdet
        exact Except.noConfusion hdet
      | ok opt =>
        cases opt with
        | none =>
          rw [hcomm] at hdet
          cases hst : ppid_from_path_with (statusPath pid) read with
          | error e =>
            rw [hst] at hdet
            exact Except.noConfusion hdet
          | ok pid2 =>
            rw [hst] at hdet
            exact ih pid2 (hops + 1) sh (by omega) hdet
        | some name =>
          simp only [hcomm] at hdet
          cases hv : shell_version_with name run with
          | error e =>
            simp only [hv] at hdet
            exact Except.noConfusion hdet
          | ok v =>
            simp only [hv] at hdet
            have hsh : sh = { name := name, version := v } :=
              (Except.ok.inj hdet).symm
            subst hsh
            unfold shell_from_pid_with at hcomm
            cases hr : read (commPath pid) with
            | error e =>
              rw [hr] at hcomm
              exact Except.noConfusion hcomm
            | ok text =>
              rw [hr] at hcomm
              exact List.mem_of_find?_eq_some (Except.ok.inj hcomm)
    · rw [detectLoop_exit read run pid hops hg] at hdet
      exact Except.noConfusion hdet

/-- C10: whenever detection returns a successful result, its name field
is a member of the static shell catalog, never an arbitrary command name
read from the process tree. -/
theorem detect_name_in_catalog (read : ReadFn) (run : RunFn) (sh : Shell)
    (h : Shell.detect_with read run = .ok sh) : sh.name ∈ SHELLS := by
  unfold Shell.detect_with at h
  cases hp : ppid_from_path_with "/proc/self/status" read with
  | error e =>
    rw [hp] at h
    exact Except.noConfusion h
  | ok pid =>
    rw [hp] at h
    exact detectLoop_name_mem read run 32 pid 0 sh (by omega) h

def c10read : ReadFn := fun path =>
  if path = "/proc/self/status" then .ok "PPid:\t100\n"
  else if path = "/proc/100/comm" then .ok "bash\n"
  else .error .invalidInput

def c10run : RunFn := fun _ => .ok (asciiBytes "bash 5.2.0")

/-- C10 witness: instantiated at a concrete read/run pair whose
detection succeeds with bash. -/
theorem detect_name_in_catalog_witness :
    (Shell.mk "bash" (some "5.2.0")).name ∈ SHELLS :=
  detect_name_in_catalog c10read c10run (Shell.mk "bash" (some "5.2.0")) (by
    unfold Shell.detect_with
    rw [show ppid_from_path_with "/proc/self/status" c10read = .ok 100 from rfl]
    exact detectLoop_found_ok c10read c10run 100 0 "bash" (some "5.2.0")
      (by omega) (by omega) rfl rfl)

/-- Helper for C6: if every readable command name along the walk fails to
classify and every status record yields a parent, the loop can only exit
through its guard, with `NotFound`. -/
theorem detectLoop_no_shell (read : ReadFn) (run : RunFn)
    (comm stat : Nat → String) (parent : Nat → Nat) (p0 : Nat)
    (hcomm : ∀ p, read (commPath p) = .ok (comm p))
    (hstat : ∀ p, read (statusPath p) = .ok (stat p))
    (hparent : ∀ p, ppid_from_text (stat p) = .ok (parent p))
    (hns : ∀ i, i < 32 → (∀ j, j ≤ i → 1 < parent^[j] p0) →
      SHELLS.find? (fun sh => trimEndStr (comm (parent^[i] p0)) == sh) = none) :
    ∀ (fuel i : Nat), 32 - i ≤ fuel → (∀ j, j < i → 1 < parent^[j] p0) →
      detectLoop read run (parent^[i] p0) i = .error .notFound := by
  intro fuel
  induction fuel with
  | zero =>
    intro i hf _
    exact detectLoop_exit read run _ i (by omega)
  | succ n ih =>
    intro i hf hinv
    by_cases hg : 1 < parent^[i] p0 ∧ i < 32
    · have hall : ∀ j, j ≤ i → 1 < parent^[j] p0 := by
        intro j hj
        rcases Nat.lt_or_ge j i with hlt | hge
        · exact hinv j hlt
        · have : j = i := by omega
          rw [this]
          exact hg.1
      have hfind := hns i hg.2 hall
      have hc : shell_from_pid_with (commPath (parent^[i] p0)) read = .ok none := by
        unfold shell_from_pid_with
        simp only [hcomm (parent^[i] p0)]
        rw [hfind]
      have hs : ppid_from_path_with (statusPath (parent^[i] p0)) read
          = .ok (parent^[i + 1] p0) := by
        unfold ppid_from_path_with
        simp only [hstat (parent^[i] p0)]
        rw [Function.iterate_succ_apply']
        exact hparent (parent^[i] p0)
      rw [detectLoop_skip read run (parent^[i] p0) i (parent^[i + 1] p0)
        hg.1 hg.2 hc hs]
      exact ih (i + 1) (by omega) (by
        intro j hj
        rcases Nat.lt_or_ge j i with hlt | hge
        · exact hinv j hlt
        · have : j = i := by omega
          rw [this]
          exact hg.1)
    · exact detectLoop_exit read run _ i hg

/-- C6: for every ancestry chain (given by per-process command names and
parent links, all readable) in which no ancestor visited within 32 hops
and before the candidate identifier reaches 1 classifies as a shell,
detection fails with NotFound; the walk iterates only while the
candidate identifier exceeds 1 and fewer than 32 hops were taken. -/
theorem detect_no_shell_not_found (read : ReadFn) (run : RunFn)
    (comm stat : Nat → String) (parent : Nat → Nat)
    (selfText : String) (p0 : Nat)
    (hself : read "/proc/self/status" = .ok selfText)
    (hp0 : ppid_from_text selfText = .ok p0)
    (hcomm : ∀ p, read (commPath p) = .ok (comm p))
    (hstat : ∀ p, read (statusPath p) = .ok (stat p))
    (hparent : ∀ p, ppid_from_text (stat p) = .ok (parent p))
    (hns : ∀ i, i < 32 → (∀ j, j ≤ i → 1 < parent^[j] p0) →
      SHELLS.find? (fun sh => trimEndStr (comm (parent^[i] p0)) == sh) = none) :
    Shell.detect_with read run = .error .notFound := by
  have hpid : ppid_from_path_with "/proc/self/status" read = .ok p0 := by
    unfold ppid_from_path_with
    rw [hself]
    exact hp0
  unfold Shell.detect_with
  rw [hpid]
  have h0 := detectLoop_no_shell read run comm stat parent p0
    hcomm hstat hparent hns 32 0 (by omega) (by intro j hj; omega)
  rw [Function.iterate_zero_apply] at h0
  exact h0

def c6read : ReadFn := fun _ => .ok "PPid:\t5\n"

def c6run : RunFn := fun _ => .ok []

/-- C6 witness: a chain in which every process reports parent 5 and no
command name is a shell; the walk exhausts the 32-hop ceiling. -/
theorem detect_no_shell_not_found_witness :
    Shell.detect_with c6read c6run = .error .notFound :=
  detect_no_shell_not_found c6read c6run
    (fun _ => "PPid:\t5\n") (fun _ => "PPid:\t5\n") (fun _ => 5)
    "PPid:\t5\n" 5
    rfl rfl (fun _ => rfl) (fun _ => rfl) (fun _ => rfl)
    (fun _ _ _ => rfl)

/-- C8: a failing read of the self status record, of a comm record or a
status record at any hop, or a failing run invocation in the version
probe, aborts detection with exactly that error, its kind unchanged —
no ancestor is skipped and nothing is retried. -/
theorem detect_error_propagation (read : ReadFn) (run : RunFn) (e : ErrorKind) :
    (read "/proc/self/status" = .error e →
      Shell.detect_with read run = .error e) ∧
    (∀ pid hops, 1 < pid → hops < 32 →
      read (commPath pid) = .error e →
      detectLoop read run pid hops = .error e) ∧
    (∀ pid hops text, 1 < pid → hops < 32 →
      read (commPath pid) = .ok text →
      SHELLS.find? (fun sh => trimEndStr text == sh) = none →
      read (statusPath pid) = .error e →
      detectLoop read run pid hops = .error e) ∧
    (∀ pid hops text name, 1 < pid → hops < 32 →
      read (commPath pid) = .ok text →
      SHELLS.find? (fun sh => trimEndStr text == sh) = some name →
      run name = .error e →
      detectLoop read run pid hops = .error e) := by
  refine ⟨?_, ?_, ?_, ?_⟩
  · intro h
    have hpid : ppid_from_path_with "/proc/self/status" read = .error e := by
      unfold ppid_from_path_with
      rw [h]
    unfold Shell.detect_with
    rw [hpid]
  · intro pid hops hp hh hr
    refine detectLoop_comm_err read run pid hops e hp hh ?_
    unfold shell_from_pid_with
    rw [hr]
  · intro pid hops text hp hh hr hfind hst
    refine detectLoop_skip_err read run pid hops e hp hh ?_ ?_
    · unfold shell_from_pid_with
      simp only [hr]
      rw [hfind]
    · unfold ppid_from_path_with
      rw [hst]
  · intro pid hops text name hp hh hr hfind hrun
    refine detectLoop_found_err read run pid hops name e hp hh ?_ ?_
    · unfold shell_from_pid_with
      simp only [hr]
      rw [hfind]
    · unfold shell_version_with
      rw [hrun]

def c8readA : ReadFn := fun path =>
  if path = "/proc/self/status" then .error .permissionDenied
  else .error .invalidInput

def c8readB : ReadFn := fun path =>
  if path = "/proc/self/status" then .ok "PPid:\t100\n"
  else if path = "/proc/100/comm" then .error .permissionDenied
  else .error .invalidInput

def c8readC : ReadFn := fun path =>
  if path = "/proc/self/status" then .ok "PPid:\t100\n"
  else if path = "/proc/100/comm" then .ok "unknown\n"
  else if path = "/proc/100/status" then .error .permissionDenied
  else .error .invalidInput

def c8readD : ReadFn := fun path =>
  if path = "/proc/self/status" then .ok "PPid:\t100\n"
  else if path = "/proc/100/comm" then .ok "bash\n"
  else .error .invalidInput

def c8runOk : RunFn := fun _ => .ok []

def c8runErr : RunFn := fun _ => .error .invalidInput

/-- C8 witness: the four abort points instantiated concretely with a
permission-denied read or an invalid-input run failure. -/
theorem detect_error_propagation_witness :
    Shell.detect_with c8readA c8runOk = .error .permissionDenied ∧
    detectLoop c8readB c8runOk 100 0 = .error .permissionDenied ∧
    detectLoop c8readC c8runOk 100 0 = .error .permissionDenied ∧
    detectLoop c8readD c8runErr 100 0 = .error .invalidInput :=
  ⟨(detect_error_propagation c8readA c8runOk .permissionDenied).1 rfl,
   (detect_error_propagation c8readB c8runOk .permissionDenied).2.1
     100 0 (by omega) (by omega) rfl,
   (detect_error_propagation c8readC c8runOk .permissionDenied).2.2.1
     100 0 "unknown\n" (by omega) (by omega) rfl rfl rfl,
   (detect_error_propagation c8readD c8runErr .invalidInput).2.2.2
     100 0 "bash\n" "bash" (by omega) (by omega) rfl rfl rfl⟩

/-- C9: when the probe captures output bytes, invalid UTF-8 fails with
InvalidData; decodable output yields the first dotted-version match as a
success, and in particular a pattern miss is the successful absent
version, never an error. -/
theorem shell_version_probe_spec (name : String) (run : RunFn) (out : List Nat)
    (h : run name = .ok out) :
    (utf8Decode? out = none →
      shell_version_with name run = .error .invalidData) ∧
    (∀ cs, utf8Decode? out = some cs →
      shell_version_with name run
        = .ok ((findDotted cs).map (fun m => (⟨m⟩ : String)))) ∧
    (∀ cs, utf8Decode? out = some cs → findDotted cs = none →
      shell_version_with name run = .ok none) := by
  refine ⟨?_, ?_, ?_⟩
  · intro hdec
    unfold shell_version_with
    simp only [h]
    rw [hdec]
  · intro cs hdec
    unfold shell_version_with
    simp only [h]
    rw [hdec]
  · intro cs hdec hfind
    unfold shell_version_with
    simp only [h]
    simp only [hdec]
    rw [hfind]
    rfl

def c9runBad : RunFn := fun _ => .ok [0xff, 0xfe]

def c9runNone : RunFn := fun _ => .ok (asciiBytes "no version here")

def c9runSome : RunFn := fun _ => .ok (asciiBytes "bash 5.2.0")

/-- C9 witness: concrete probes with invalid bytes, a versionless
banner, and "bash 5.2.0". -/
theorem shell_version_probe_spec_witness :
    shell_version_with "bad_utf" c9runBad = .error .invalidData ∧
    shell_version_with "sh" c9runNone = .ok none ∧
    shell_version_with "bash" c9runSome = .ok (some "5.2.0") :=
  ⟨(shell_version_probe_spec "bad_utf" c9runBad [0xff, 0xfe] rfl).1 rfl,
   (shell_version_probe_spec "sh" c9runNone (asciiBytes "no version here") rfl).2.2
     "no version here".data rfl rfl,
   (shell_version_probe_spec "bash" c9runSome (asciiBytes "bash 5.2.0") rfl).2.1
     "bash 5.2.0".data rfl⟩

/-- Helper for C5: a line list without a `PPid:`-prefixed line scans to
`NotFound`. -/
theorem ppidFromLines_none : ∀ (ls : List (List Char)),
    ls.find? (fun l => (stripPrefixL "PPid:".data l).isSome) = none →
    ppidFromLines ls = .error .notFound := by
  intro ls
  induction ls with
  | nil => intro _; rfl
  | cons a ls ih =>
    intro h
    rw [List.find?_cons] at h
    cases hs : stripPrefixL "PPid:".data a with
    | some r =>
      simp only [hs, Option.isSome_some] at h
      exact Option.noConfusion h
    | none =>
      simp only [hs, Option.isSome_none] at h
      unfold ppidFromLines
      rw [hs]
      exact ih h

/-- Helper for C5: the scan is decided by the first `PPid:`-prefixed
line, whose trimmed remainder is parsed as a 32-bit unsigned integer. -/
theorem ppidFromLines_first : ∀ (ls : List (List Char)) (l rest : List Char),
    ls.find? (fun l => (stripPrefixL "PPid:".data l).isSome) = some l →
    stripPrefixL "PPid:".data l = some rest →
    ppidFromLines ls = (match parseU32 (trimL rest) with
      | some k => .ok k
      | none => .error .invalidData) := by
  intro ls
  induction ls with
  | nil =>
    intro l rest h _
    exact Option.noConfusion h
  | cons a ls ih =>
    intro l rest h hsp
    rw [List.find?_cons] at h
    cases hs : stripPrefixL "PPid:".data a with
    | some r =>
      simp only [hs, Option.isSome_some] at h
      have ha : a = l := Option.some.inj h
      subst ha
      rw [hs] at hsp
      have hr : r = rest := Option.some.inj hsp
      subst hr
      unfold ppidFromLines
      rw [hs]
    | none =>
      simp only [hs, Option.isSome_none] at h
      unfold ppidFromLines
      rw [hs]
      exact ih l rest h hsp

/-- C5 (amended): parent-id reading is decided by the first line with
prefix "PPid:": if no line has the prefix the result is NotFound; on the
first prefixed line, a token that parses as a 32-bit unsigned integer k
yields k, and any other token yields InvalidData. -/
theorem ppid_first_line_spec (text : String) :
    ((rustLines text.data).find?
        (fun l => (stripPrefixL "PPid:".data l).isSome) = none →
      ppid_from_text text = .error .notFound) ∧
    (∀ l rest k, (rustLines text.data).find?
        (fun l => (stripPrefixL "PPid:".data l).isSome) = some l →
      stripPrefixL "PPid:".data l = some rest →
      (parseU32 (trimL rest) = some k → ppid_from_text text = .ok k) ∧
      (parseU32 (trimL rest) = none →
        ppid_from_text text = .error .invalidData)) := by
  constructor
  · intro h
    exact ppidFromLines_none _ h
  · intro l rest k hfind hsp
    have hbase := ppidFromLines_first (rustLines text.data) l rest hfind hsp
    constructor
    · intro hp
      unfold ppid_from_text
      rw [hbase, hp]
    · intro hp
      unfold ppid_from_text
      rw [hbase, hp]

/-- C5 counterexample: the text "PPid:\tx\nPPid:\t5\n" contains the
line "PPid:\t5" yet reading returns InvalidData, not 5, because the
first PPid line wins; and "PPid:\t4294967296\n" holds a non-negative
integer yet fails InvalidData, because parsing is bounded to u32. -/
theorem ppid_contains_line_counterexample :
    "PPid:\t5".data ∈ rustLines ("PPid:\tx\nPPid:\t5\n").data ∧
    ppid_from_text "PPid:\tx\nPPid:\t5\n" = .error .invalidData ∧
    ppid_from_text "PPid:\t4294967296\n" = .error .invalidData :=
  ⟨by decide, rfl, rfl⟩

/-- C5 witness: the three branches of the amended claim at the concrete
status texts used by the library's own tests. -/
theorem ppid_first_line_spec_witness :
    ppid_from_text "Name:\tbash\nPPid:\t123\n" = .ok 123 ∧
    ppid_from_text "Name:\tbash\n" = .error .notFound ∧
    ppid_from_text "Name:\tbash\nPPid:\tbad\n" = .error .invalidData :=
  ⟨((ppid_first_line_spec "Name:\tbash\nPPid:\t123\n").2
      "PPid:\t123".data "\t123".data 123 rfl rfl).1 rfl,
   (ppid_first_line_spec "Name:\tbash\n").1 rfl,
   ((ppid_first_line_spec "Name:\tbash\nPPid:\tbad\n").2
      "PPid:\tbad".data "\tbad".data 0 rfl rfl).2 rfl⟩

/-- Helper for C7: `find?` with an equality test recovers exact
membership. -/
theorem find?_beq_eq_some (v : String) : ∀ (l : List String) (n : String),
    (l.find? (fun x => v == x) = some n) ↔ (v = n ∧ n ∈ l) := by
  intro l
  induction l with
  | nil =>
    intro n
    simp
  | cons a l ih =>
    intro n
    rw [List.find?_cons]
    cases hb : v == a with
    | true =>
      have hva : v = a := eq_of_beq hb
      simp only []
      constructor
      · intro h
        have han : a = n := Option.some.inj h
        exact ⟨hva.trans han, han ▸ List.mem_cons_self a l⟩
      · intro hn
        have : a = n := hva.symm.trans hn.1
        rw [this]
    | false =>
      simp only []
      rw [ih n]
      constructor
      · intro hn
        exact ⟨hn.1, List.mem_cons_of_mem a hn.2⟩
      · intro hn
        rcases List.mem_cons.mp hn.2 with hna | hmem
        · have : (v == a) = true := beq_iff_eq.mpr (hn.1.trans hna)
          rw [this] at hb
          exact Bool.noConfusion hb
        · exact ⟨hn.1, hmem⟩

/-- C7 (amended): classification of a command-name record succeeds with
entry n exactly when the record equals n after trimming ALL trailing
whitespace (Rust trim_end) and n is in the catalog; matching is exact
membership, never a prefix or substring test. -/
theorem classify_exact_trimmed_match (path text n : String) (read : ReadFn)
    (h : read path = .ok text) :
    shell_from_pid_with path read = .ok (some n) ↔
      (trimEndStr text = n ∧ n ∈ SHELLS) := by
  unfold shell_from_pid_with
  simp only [h]
  constructor
  · intro hk
    exact (find?_beq_eq_some (trimEndStr text) SHELLS n).mp (Except.ok.inj hk)
  · intro hn
    have hf := (find?_beq_eq_some (trimEndStr text) SHELLS n).mpr hn
    rw [hf]

/-- Refinement comparison, following the claim's words rather than the
source: remove one trailing line terminator (a final newline) and
nothing else. -/
def specTrimSingleNewline (s : String) : String :=
  if s.data.getLast? = some '\n' then ⟨s.data.dropLast⟩ else s

def c7cread : ReadFn := fun _ => .ok "bash \n"

/-- C7 counterexample: the record "bash \n" trimmed of a single
trailing line terminator is "bash ", which is not a catalog name, so the
claim predicts absent — but the code trims all trailing whitespace and
classifies it as bash. -/
theorem classify_counterexample :
    specTrimSingleNewline "bash \n" = "bash " ∧
    ("bash " ∈ SHELLS → False) ∧
    shell_from_pid_with "p" c7cread = .ok (some "bash") :=
  ⟨rfl, by decide, rfl⟩

def c7wread : ReadFn := fun _ => .ok "bash\n"

def c7hread : ReadFn := fun _ => .ok "bash-completion-helper\n"

/-- C7 witness: "bash\n" classifies as bash, and the proper extension
"bash-completion-helper\n" classifies as nothing. -/
theorem classify_exact_trimmed_match_witness :
    shell_from_pid_with "p" c7wread = .ok (some "bash") ∧
    (shell_from_pid_with "q" c7hread = .ok (some "bash") → False) :=
  ⟨(classify_exact_trimmed_match "p" "bash\n" "bash" c7wread rfl).mpr
      ⟨rfl, by decide⟩,
   fun h => by
     have hc := (classify_exact_trimmed_match "q" "bash-completion-helper\n"
       "bash" c7hread rfl).mp h
     exact absurd hc.1 (by decide)⟩

def c2read : ReadFn := fun _ => .ok "nu\n"

/-- C2: the catalog the code actually ships.  SHELLS holds exactly nine
names — not the thirteen the claim lists — and classification of "nu"
(one of the four missing names) yields absent. -/
theorem shells_catalog_is_nine :
    SHELLS = ["bash", "sh", "dash", "zsh", "fish", "ksh", "mksh", "tcsh", "csh"] ∧
    SHELLS.length = 9 ∧
    ("nu" ∈ SHELLS → False) ∧
    shell_from_pid_with "/proc/100/comm" c2read = .ok none :=
  ⟨rfl, rfl, by decide, rfl⟩

def c3run : RunFn := fun _ => .error .permissionDenied

/-- C3: the version probe for dash does consult the command-execution
capability: a failing run capability makes the probe fail, so the probe
neither skips the subprocess nor returns { dash, None } unconditionally. -/
theorem dash_probe_invokes_run :
    shell_version_with "dash" c3run = .error .permissionDenied ∧
    (shell_version_with "dash" c3run = .ok none → False) :=
  ⟨rfl, fun h => Except.noConfusion h⟩

def c4run : RunFn := fun _ => .ok (asciiBytes "@(#)MIRBSD KSH R59 2020/10/31")

/-- C4: version extraction for mksh uses the same dotted-number pattern
as every shell; on "@(#)MIRBSD KSH R59 2020/10/31" it finds nothing and
returns the successful absent version, not some "R59". -/
theorem mksh_probe_dotted_only :
    shell_version_with "mksh" c4run = .ok none ∧
    (shell_version_with "mksh" c4run = .ok (some "R59") → False) :=
  ⟨rfl, fun h => Option.noConfusion (Except.ok.inj h)⟩
